import Mathlib

/-!
Verification development for the tabular-data transformation operations of
this repository (src/src/operations.py).  The six operation classes
(RemoveDuplicates, FilterRows, ReplaceValues, MergeColumns, NormalizeText,
ConvertDateFormat) are embedded shallowly: a pandas DataFrame becomes a
`Table` (named columns plus rows of cell values), each Python class becomes a
structure holding its constructor parameters, `__init__` validation becomes an
`init` function returning `Except`, and each `apply` method becomes a pure
function `Table → Except String Table` whose error strings mirror the
`raise ValueError(f"... failed: {e}")` wrapping in the source.

Model restrictions (documented where they matter): cell values are strings,
integers and booleans (no floats, no NaN, no collection-valued cells), Python
equality is modelled by normalising booleans to integers, the pandas
`.str.contains` regex behaviour is modelled as a plain substring test, and
`pd.to_datetime` / `strftime` are modelled for the %Y, %m, %d directives with
the CPython TimeRE digit flexibility, month-first heuristics with day-first
fallback for auto parsing of numeric date strings, epoch-nanosecond handling
of integer cells in auto mode and str() fallback under an explicit format.
-/

/-- Cell values of a table: the string / integer / boolean scalars that the
repository feeds through pandas object columns. -/
inductive Value where
  | str : String → Value
  | int : Int → Value
  | bool : Bool → Value
deriving DecidableEq

/-- Python treats booleans as the integers 0 and 1 for equality and ordering;
`norm` maps every value to that canonical form. -/
def Value.norm : Value → Value
  | .bool b => .int (if b then 1 else 0)
  | .int n => .int n
  | .str s => .str s

/-- Model of Python value equality (the `==` used by pandas when comparing,
replacing and grouping cells): equality after boolean-to-integer
normalisation. -/
def pyEq (a b : Value) : Bool := decide (a.norm = b.norm)

/-- Model of Python `str()` applied to a cell, as done by `.astype(str)`. -/
def Value.pyStr : Value → String
  | .str s => s
  | .int n => toString n
  | .bool b => if b then "True" else "False"

/-- Python type name of a value, used in TypeError-style messages. -/
def Value.typeName : Value → String
  | .str _ => "str"
  | .int _ => "int"
  | .bool _ => "bool"

/-- Model of a pandas DataFrame: ordered named columns and ordered rows,
each row a list of cells aligned with the column list. -/
structure Table where
  cols : List String
  rows : List (List Value)
deriving DecidableEq

/-- Model of `df.copy()`: a fresh table with the same value. -/
def Table.copy (t : Table) : Table := { cols := t.cols, rows := t.rows }

/-- Model of `df.empty` (true when any axis has length zero). -/
def Table.isEmptyDf (t : Table) : Bool := t.rows.isEmpty || t.cols.isEmpty

/-- Well-formedness of a table in the data model of the spec: every row has
one cell per column, and a table without columns has no rows. -/
def Table.WF (t : Table) : Prop :=
  (∀ row ∈ t.rows, row.length = t.cols.length) ∧ (t.cols = [] → t.rows = [])

instance tableWFDecidable (t : Table) : Decidable t.WF := by
  unfold Table.WF
  infer_instance

/-- Cells of column number `i`, one per row. -/
def Table.getCol (t : Table) (i : Nat) : List Value :=
  t.rows.map (fun row => row.getD i (Value.str ("")))

/-- Model of assigning a full column: `df[col] = series` for an existing
column position `i`. -/
def Table.setCol (t : Table) (i : Nat) (vs : List Value) : Table :=
  { cols := t.cols, rows := List.zipWith (fun row v => row.set i v) t.rows vs }

/-- Position of a named column, `none` when the name is absent (the
situation in which pandas raises a KeyError for a column lookup). -/
def colIdx? : List String → String → Option Nat
  | [], _ => none
  | x :: xs, c => if x = c then some 0 else (colIdx? xs c).map (fun i => i + 1)

/-- Model of `df[name] = series`: overwrite the column in place when the name
exists, otherwise append a new column at the end. -/
def Table.setColByName (t : Table) (c : String) (vs : List Value) : Table :=
  match colIdx? t.cols c with
  | some i => t.setCol i vs
  | none =>
      { cols := t.cols ++ [c],
        rows := List.zipWith (fun row v => row ++ [v]) t.rows vs }

/-- Map a fallible function over a list, stopping at the first error: the
shape of every per-cell pandas operation used by the source (the whole
column either transforms or the operation raises). -/
def mapEx {α β : Type} (f : α → Except String β) : List α → Except String (List β)
  | [] => .ok []
  | a :: as =>
    match f a with
    | .error e => .error e
    | .ok b =>
      match mapEx f as with
      | .error e => .error e
      | .ok bs => .ok (b :: bs)

/-- Model of boolean-mask indexing `df[mask]`: keep the rows whose mask entry
is true, preserving order. -/
def maskFilter {α : Type} : List α → List Bool → List α
  | r :: rs, b :: bs => if b then r :: maskFilter rs bs else maskFilter rs bs
  | _, _ => []

/-- Resolve a list of column names to their positions; `none` when any name is
missing (the situation in which pandas raises a KeyError). -/
def colIdxs? (cols : List String) : List String → Option (List Nat)
  | [] => some []
  | c :: cs =>
    match colIdx? cols c, colIdxs? cols cs with
    | some i, some is => some (i :: is)
    | _, _ => none

/-- Substring test on strings, the model of the case-sensitive
`.str.contains` check of the source (regex metacharacters are not
modelled). -/
def strContainsB (hay needle : String) : Bool :=
  decide (needle.toList <:+: hay.toList)

/-- Lexicographic code-point order on character lists, the model of Python
string comparison. -/
def charListLt : List Char → List Char → Bool
  | [], [] => false
  | [], _ :: _ => true
  | _ :: _, [] => false
  | c :: cs, d :: ds => if c = d then charListLt cs ds else decide (c < d)

/-- Model of Python `<` on strings. -/
def pyStrLt (s t : String) : Bool := charListLt s.toList t.toList

/-- Result of one Python comparison `cell oper value`, or `none` when the two
operands are not order-comparable (Python raises a TypeError). -/
def cmpVals (oper : String) (cell value : Value) : Option Bool :=
  match cell.norm, value.norm with
  | .int x, .int y =>
    match oper with
    | ">" => some (decide (y < x))
    | "<" => some (decide (x < y))
    | ">=" => some (decide (y ≤ x))
    | "<=" => some (decide (x ≤ y))
    | _ => none
  | .str s, .str t =>
    match oper with
    | ">" => some (pyStrLt t s)
    | "<" => some (pyStrLt s t)
    | ">=" => some (!pyStrLt s t)
    | "<=" => some (!pyStrLt t s)
    | _ => none
  | _, _ => none

/-- Ordering comparison of one cell against the configured value, raising the
Python TypeError message when the operands are incomparable. -/
def ordTest (oper : String) (value cell : Value) : Except String Bool :=
  match cmpVals oper cell value with
  | some b => .ok b
  | none =>
      .error (oper ++ " not supported between instances of " ++
        cell.typeName ++ " and " ++ value.typeName)

/-- Predicate evaluated on one cell by FilterRows.apply, one case per branch
of the if/elif chain over the operator in the source.  The isin branch
requires a list-like value; collection values are outside this model of
cells, so that branch reports the TypeError that pandas raises for every
scalar argument. -/
def cellTest (oper : String) (value cell : Value) : Except String Bool :=
  match oper with
  | "==" => .ok (pyEq cell value)
  | "!=" => .ok (!pyEq cell value)
  | ">" => ordTest (">") value cell
  | "<" => ordTest ("<") value cell
  | ">=" => ordTest (">=") value cell
  | "<=" => ordTest ("<=") value cell
  | "contains" => .ok (strContainsB cell.pyStr value.pyStr)
  | "in" =>
      .error ("only list-like objects are allowed to be passed to isin, you passed a " ++
        value.typeName)
  | op => .error ("Unknown operator: " ++ op)

/-- Wrap a failing result the way each `apply` method in the source wraps any
exception: `raise ValueError(f"<label>: {e}")`. -/
def wrapErr (label : String) : Except String Table → Except String Table
  | .ok t => .ok t
  | .error e => .error (label ++ ": " ++ e)

/-- Configuration of the RemoveDuplicates operation: the optional duplicate
key columns and the keep policy, stored exactly as passed (the Python
constructor performs no validation, so keep is an arbitrary value). -/
structure RemoveDuplicates where
  columns : Option (List String)
  keep : Value
deriving DecidableEq

/-- Model of RemoveDuplicates.__init__: stores both parameters and can never
fail. -/
def RemoveDuplicates.init (columns : Option (List String)) (keep : Value) :
    Except String RemoveDuplicates :=
  .ok { columns := columns, keep := keep }

/-- Duplicate keys equality: pandas groups cells by Python equality, modelled
by comparing normalised key vectors. -/
def pyEqL (a b : List Value) : Bool :=
  decide (a.map Value.norm = b.map Value.norm)

/-- Model of `DataFrame.duplicated(keep="first")` on a list of row keys:
an entry is true when an equal key occurred earlier; `seen` carries the keys
of the already-scanned prefix. -/
def dupMaskFirstAux (seen : List (List Value)) : List (List Value) → List Bool
  | [] => []
  | k :: ks => seen.any (fun s => pyEqL s k) :: dupMaskFirstAux (k :: seen) ks

/-- Duplicate mask for keep="first". -/
def dupMaskFirst (keys : List (List Value)) : List Bool := dupMaskFirstAux [] keys

/-- Duplicate mask for keep="last": pandas marks a row when an equal key
occurs later, computed by scanning the reversed keys. -/
def dupMaskLast (keys : List (List Value)) : List Bool :=
  (dupMaskFirstAux [] keys.reverse).reverse

/-- Duplicate mask for keep=False: every member of a group of size at least
two is marked. -/
def dupMaskAll (keys : List (List Value)) : List Bool :=
  keys.map (fun k => decide (2 ≤ keys.countP (fun k2 => pyEqL k k2)))

/-- Model of `df.drop_duplicates(subset-resolved keys, keep)`: build the
duplicated mask for the keep policy and keep the unmarked rows; an
unrecognised keep policy raises the pandas ValueError. -/
def dedupWith (t : Table) (key : List Value → List Value) (keep : Value) :
    Except String Table :=
  let keys := t.rows.map key
  if keep = Value.str ("first") then
    .ok { cols := t.cols, rows := maskFilter t.rows ((dupMaskFirst keys).map (fun b => !b)) }
  else if keep = Value.str ("last") then
    .ok { cols := t.cols, rows := maskFilter t.rows ((dupMaskLast keys).map (fun b => !b)) }
  else if keep = Value.bool false then
    .ok { cols := t.cols, rows := maskFilter t.rows ((dupMaskAll keys).map (fun b => !b)) }
  else .error ("keep must be either first, last or False")

/-- Key of a row under a resolved list of key-column positions. -/
def rowKey (idxs : List Nat) (row : List Value) : List Value :=
  idxs.map (fun i => row.getD i (Value.str ("")))

/-- Body of RemoveDuplicates.apply: copy, then `drop_duplicates(subset,
keep)`; pandas returns the copy unchanged for an empty frame, validates the
subset columns next, and validates the keep policy last. -/
def RemoveDuplicates.applyCore (cfg : RemoveDuplicates) (df : Table) :
    Except String Table :=
  let result := df.copy
  if result.isEmptyDf then .ok result
  else
    match cfg.columns with
    | none => dedupWith result (fun r => r) cfg.keep
    | some s =>
      match colIdxs? result.cols s with
      | none =>
          .error ("KeyError: " ++
            String.intercalate (", ") (s.filter (fun c => !(result.cols.contains c))))
      | some idxs => dedupWith result (rowKey idxs) cfg.keep

/-- Model of RemoveDuplicates.apply with its try/except wrapping. -/
def RemoveDuplicates.apply (cfg : RemoveDuplicates) (df : Table) :
    Except String Table :=
  wrapErr ("Remove duplicates failed") (RemoveDuplicates.applyCore cfg df)

/-- Key function actually used by RemoveDuplicates.apply on table `t`: the
whole row when no subset is configured, otherwise the cells of the resolved
subset columns. -/
def dupKey (cfg : RemoveDuplicates) (t : Table) (row : List Value) : List Value :=
  match cfg.columns with
  | none => row
  | some s => rowKey ((colIdxs? t.cols s).getD []) row

/-- Configuration of the FilterRows operation. -/
structure FilterRows where
  column : String
  operator : String
  value : Value
deriving DecidableEq

/-- Operator whitelist of FilterRows.__init__. -/
def validOperators : List String :=
  ["==", "!=", ">", "<", ">=", "<=", "contains", "in"]

/-- Model of FilterRows.__init__: rejects an operator outside the whitelist
before any table is seen. -/
def FilterRows.init (column oper : String) (value : Value) :
    Except String FilterRows :=
  if oper ∈ validOperators then .ok { column := column, operator := oper, value := value }
  else .error ("Operator must be one of: [==, !=, >, <, >=, <=, contains, in]")

/-- Body of FilterRows.apply: copy, read the column (KeyError when missing),
evaluate the operator on every cell and keep the rows whose predicate is
true. -/
def FilterRows.applyCore (cfg : FilterRows) (df : Table) : Except String Table :=
  let df2 := df.copy
  match colIdx? df2.cols cfg.column with
  | none => .error ("KeyError: " ++ cfg.column)
  | some i =>
    match mapEx (fun row => cellTest cfg.operator cfg.value (row.getD i (Value.str ("")))) df2.rows with
    | .error e => .error e
    | .ok mask => .ok { cols := df2.cols, rows := maskFilter df2.rows mask }

/-- Model of FilterRows.apply with its try/except wrapping. -/
def FilterRows.apply (cfg : FilterRows) (df : Table) : Except String Table :=
  wrapErr ("Filter failed") (FilterRows.applyCore cfg df)

/-- Configuration of the ReplaceValues operation (its constructor stores the
three parameters without validation). -/
structure ReplaceValues where
  column : String
  old_value : Value
  new_value : Value
deriving DecidableEq

/-- Replacement of one cell: new when the cell equals old, the cell itself
otherwise. -/
def replaceCell (old new c : Value) : Value :=
  if pyEq c old then new else c

/-- Model of `Series.replace(old, new)` for scalar old values: every cell
equal to old becomes new; the multi-replace semantics of list-valued old
parameters is outside this model of cells. -/
def seriesReplace (old new : Value) (cells : List Value) : List Value :=
  cells.map (replaceCell old new)

/-- Body of ReplaceValues.apply: copy, then assign the replaced column back
(KeyError when the column is missing). -/
def ReplaceValues.applyCore (cfg : ReplaceValues) (df : Table) :
    Except String Table :=
  let df2 := df.copy
  match colIdx? df2.cols cfg.column with
  | none => .error ("KeyError: " ++ cfg.column)
  | some i => .ok (df2.setCol i (seriesReplace cfg.old_value cfg.new_value (df2.getCol i)))

/-- Model of ReplaceValues.apply with its try/except wrapping. -/
def ReplaceValues.apply (cfg : ReplaceValues) (df : Table) : Except String Table :=
  wrapErr ("Replace failed") (ReplaceValues.applyCore cfg df)

/-- Configuration of the MergeColumns operation. -/
structure MergeColumns where
  columns : List String
  new_column_name : String
  separator : String
deriving DecidableEq

/-- Joined text of one row for MergeColumns: each source cell converted with
str() and joined with the separator in the given column order. -/
def mergeRow (idxs : List Nat) (sep : String) (row : List Value) : Value :=
  Value.str (String.intercalate sep (idxs.map (fun i => Value.pyStr (row.getD i (Value.str (""))))))

/-- Body of MergeColumns.apply: copy, select the source columns (KeyError
when any is missing), stringify and join every row, and assign the result to
the destination column. -/
def MergeColumns.applyCore (cfg : MergeColumns) (df : Table) :
    Except String Table :=
  let df2 := df.copy
  match colIdxs? df2.cols cfg.columns with
  | none =>
      .error ("KeyError: " ++
        String.intercalate (", ") (cfg.columns.filter (fun c => !(df2.cols.contains c))) ++
        " not in index")
  | some idxs =>
      .ok (df2.setColByName cfg.new_column_name
        (df2.rows.map (fun row => mergeRow idxs cfg.separator row)))

/-- Model of MergeColumns.apply with its try/except wrapping. -/
def MergeColumns.apply (cfg : MergeColumns) (df : Table) : Except String Table :=
  wrapErr ("Merge columns failed") (MergeColumns.applyCore cfg df)

/-- Configuration of the NormalizeText operation. -/
structure NormalizeText where
  column : String
  method : String
deriving DecidableEq

/-- Method whitelist of NormalizeText.__init__. -/
def validMethods : List String := ["lower", "upper", "title", "trim", "capitalize"]

/-- Model of NormalizeText.__init__: rejects a method outside the
whitelist. -/
def NormalizeText.init (column method : String) : Except String NormalizeText :=
  if method ∈ validMethods then .ok { column := column, method := method }
  else .error ("Method must be one of: [lower, upper, title, trim, capitalize]")

/-- Model of `.str.lower()`. -/
def strLower (s : String) : String := String.mk (s.toList.map Char.toLower)

/-- Model of `.str.upper()`. -/
def strUpper (s : String) : String := String.mk (s.toList.map Char.toUpper)

/-- Model of `.str.title()`: uppercase every letter that follows a
non-letter, lowercase the other letters. -/
def strTitleAux : Bool → List Char → List Char
  | _, [] => []
  | prev, c :: cs =>
    if c.isAlpha then (if prev then c.toLower else c.toUpper) :: strTitleAux true cs
    else c :: strTitleAux false cs

/-- Model of `.str.title()`. -/
def strTitle (s : String) : String := String.mk (strTitleAux false s.toList)

/-- Model of `.str.strip()`: drop leading and trailing whitespace. -/
def strStrip (s : String) : String :=
  String.mk (((s.toList.dropWhile Char.isWhitespace).reverse.dropWhile Char.isWhitespace).reverse)

/-- Model of `.str.capitalize()`: first character uppercased, the rest
lowercased. -/
def strCapitalize (s : String) : String :=
  match s.toList with
  | [] => ""
  | c :: cs => String.mk (c.toUpper :: cs.map Char.toLower)

/-- Dispatch over the normalization method, mirroring the if/elif chain of
the source (an unknown method leaves the stringified cell unchanged, exactly
as the chain with no else branch does). -/
def normalizeStr (method s : String) : String :=
  if method = "lower" then strLower s
  else if method = "upper" then strUpper s
  else if method = "title" then strTitle s
  else if method = "trim" then strStrip s
  else if method = "capitalize" then strCapitalize s
  else s

/-- Body of NormalizeText.apply: copy, stringify the target column with
astype(str), apply the selected transform and assign the column back. -/
def NormalizeText.applyCore (cfg : NormalizeText) (df : Table) :
    Except String Table :=
  let df2 := df.copy
  match colIdx? df2.cols cfg.column with
  | none => .error ("KeyError: " ++ cfg.column)
  | some i =>
      .ok (df2.setCol i ((df2.getCol i).map
        (fun c => Value.str (normalizeStr cfg.method c.pyStr))))

/-- Model of NormalizeText.apply with its try/except wrapping. -/
def NormalizeText.apply (cfg : NormalizeText) (df : Table) : Except String Table :=
  wrapErr ("Text normalization failed") (NormalizeText.applyCore cfg df)

/-- Configuration of the ConvertDateFormat operation. -/
structure ConvertDateFormat where
  column : String
  from_format : String
  to_format : String
deriving DecidableEq

/-- Calendar date produced by parsing a cell. -/
structure Date where
  year : Nat
  month : Nat
  day : Nat
deriving DecidableEq

/-- Leap-year rule of the Gregorian calendar. -/
def isLeapYear (y : Nat) : Bool :=
  (y % 4 == 0 && y % 100 != 0) || (y % 400 == 0)

/-- Days in a month of the Gregorian calendar. -/
def daysInMonth (y m : Nat) : Nat :=
  if m = 2 then (if isLeapYear y then 29 else 28)
  else if m = 4 ∨ m = 6 ∨ m = 9 ∨ m = 11 then 30
  else 31

/-- Read exactly `n` decimal digits from the front of a character list, as
the %Y regex of the CPython TimeRE does for the year. -/
def readDigitsAux : Nat → Nat → List Char → Option (Nat × List Char)
  | 0, acc, cs => some (acc, cs)
  | _ + 1, _, [] => none
  | n + 1, acc, c :: cs =>
    if c.isDigit then readDigitsAux n (acc * 10 + (c.toNat - 48)) cs else none

/-- Read two decimal digits. -/
def read2Digits : List Char → Option (Nat × List Char)
  | c1 :: c2 :: rest =>
    if c1.isDigit ∧ c2.isDigit then
      some ((c1.toNat - 48) * 10 + (c2.toNat - 48), rest)
    else none
  | _ => none

/-- Read one decimal digit. -/
def read1Digit : List Char → Option (Nat × List Char)
  | c :: rest => if c.isDigit then some (c.toNat - 48, rest) else none
  | [] => none

/-- Strict pattern matching of a date string against a format, supporting the
%Y, %m and %d directives and literal characters; the model of the
fixed-format branch of `pd.to_datetime`, which delegates to regexes built
from the CPython strptime TimeRE.  Like those regexes, %Y takes exactly four
digits, while %m and %d prefer a two-digit field in their value range
(month 01..12, day 01..31) and fall back to a single nonzero digit,
backtracking to the one-digit reading when the greedy one makes the rest of
the pattern fail. -/
def strptimeAux : List Char → List Char → Nat × Nat × Nat → Option (Nat × Nat × Nat)
  | [], [], ymd => some ymd
  | [], _ :: _, _ => none
  | '%' :: 'Y' :: fmt, cs, (_, m, d) =>
    match readDigitsAux 4 0 cs with
    | some (v, rest) => strptimeAux fmt rest (v, m, d)
    | none => none
  | '%' :: 'm' :: fmt, cs, (y, _, d) =>
    match
      (match read2Digits cs with
       | some (v, rest) =>
         if 1 ≤ v ∧ v ≤ 12 then strptimeAux fmt rest (y, v, d) else none
       | none => none) with
    | some out => some out
    | none =>
      match read1Digit cs with
      | some (v, rest) => if 1 ≤ v then strptimeAux fmt rest (y, v, d) else none
      | none => none
  | '%' :: 'd' :: fmt, cs, (y, m, _) =>
    match
      (match read2Digits cs with
       | some (v, rest) =>
         if 1 ≤ v ∧ v ≤ 31 then strptimeAux fmt rest (y, m, v) else none
       | none => none) with
    | some out => some out
    | none =>
      match read1Digit cs with
      | some (v, rest) => if 1 ≤ v then strptimeAux fmt rest (y, m, v) else none
      | none => none
  | '%' :: _ :: _, _, _ => none
  | _ :: _, [], _ => none
  | c :: fmt, c2 :: cs, ymd => if c = c2 then strptimeAux fmt cs ymd else none

/-- Parse a date string under an explicit format, validating the calendar
bounds of the parsed fields exactly as the datetime constructor does. -/
def strptime (fmt s : String) : Option Date :=
  match strptimeAux fmt.toList s.toList (1900, 1, 1) with
  | some (y, m, d) =>
    if 1 ≤ m ∧ m ≤ 12 ∧ 1 ≤ d ∧ d ≤ daysInMonth y m then some { year := y, month := m, day := d }
    else none
  | none => none

/-- Date patterns tried, in order, by the model of the heuristic (auto)
parsing of `pd.to_datetime` on strings: the year-first forms dateutil
recognises, then the month-first forms it prefers with its default
dayfirst=False, then the day-first fallback it uses when the first number
cannot be a month.  Date expressions outside these numeric forms (textual
months, time components) are outside the model. -/
def autoFormats : List String :=
  ["%Y-%m-%d", "%Y/%m/%d", "%Y%m%d", "%m/%d/%Y", "%d/%m/%Y", "%m-%d-%Y", "%d-%m-%Y"]

/-- Try a list of formats in order, the model of heuristic date parsing. -/
def tryFormats : List String → String → Option Date
  | [], _ => none
  | f :: fs, s =>
    match strptime f s with
    | some d => some d
    | none => tryFormats fs s

/-- Nanoseconds per day, the default unit of `pd.to_datetime` for integer
input. -/
def nsPerDay : Int := 86400000000000

/-- Civil Gregorian date of a day count relative to 1970-01-01, computed
with floor divisions (the days-from-epoch inverse used by calendar
libraries). -/
def civilFromDays (z : Int) : Int × Nat × Nat :=
  let z2 := z + 719468
  let era := Int.fdiv z2 146097
  let doe := (z2 - era * 146097).toNat
  let yoe := (doe - doe / 1460 + doe / 36524 - doe / 146096) / 365
  let y := (yoe : Int) + era * 400
  let doy := doe - (365 * yoe + yoe / 4 - yoe / 100)
  let mp := (5 * doy + 2) / 153
  let d := doy - (153 * mp + 2) / 5 + 1
  let m := if mp < 10 then mp + 3 else mp - 9
  (if m ≤ 2 then y + 1 else y, m, d)

/-- Model of interpreting an integer cell as epoch nanoseconds, as
`pd.to_datetime` does for integers in auto mode; values outside the int64
range are out of bounds for datetime64[ns]. -/
def epochDate (n : Int) : Option Date :=
  if n < -(2 ^ 63) ∨ 2 ^ 63 ≤ n then none
  else
    let c := civilFromDays (Int.fdiv n nsPerDay)
    some { year := c.1.toNat, month := c.2.1, day := c.2.2 }

/-- Parse one cell into a date under the active source-format policy, the
model of `pd.to_datetime` on one element of an object column.  Under auto,
string cells go through the heuristic month-first patterns, integer cells
are epoch nanoseconds, and boolean cells raise the pandas TypeError; under
an explicit format every cell is stringified with str() and matched
strictly against the pattern, as the pandas array_strptime fallback does. -/
def parseDateCell (fromFmt : String) (v : Value) : Except String Date :=
  if fromFmt = "auto" then
    match v with
    | .str s =>
      match tryFormats autoFormats s with
      | some d => .ok d
      | none => .error ("Unknown datetime string format, unable to parse: " ++ s)
    | .int n =>
      match epochDate n with
      | some d => .ok d
      | none => .error ("Out of bounds nanosecond timestamp: " ++ toString n)
    | .bool b =>
      .error ((if b then "True" else "False") ++ " is not convertible to datetime")
  else
    match strptime fromFmt v.pyStr with
    | some d => .ok d
    | none => .error ("time data " ++ v.pyStr ++ " does not match format " ++ fromFmt)

/-- Zero-padded two-digit field for strftime. -/
def pad2 (n : Nat) : String := if n < 10 then "0" ++ toString n else toString n

/-- Zero-padded four-digit year field for strftime. -/
def pad4 (n : Nat) : String :=
  if n < 10 then "000" ++ toString n
  else if n < 100 then "00" ++ toString n
  else if n < 1000 then "0" ++ toString n
  else toString n

/-- Render a parsed date through a format string, supporting the %Y, %m and
%d directives; the model of `.dt.strftime`. -/
def strftimeAux (d : Date) : List Char → String
  | [] => ""
  | '%' :: 'Y' :: cs => pad4 d.year ++ strftimeAux d cs
  | '%' :: 'm' :: cs => pad2 d.month ++ strftimeAux d cs
  | '%' :: 'd' :: cs => pad2 d.day ++ strftimeAux d cs
  | '%' :: c :: cs => String.mk ['%', c] ++ strftimeAux d cs
  | c :: cs => String.mk [c] ++ strftimeAux d cs

/-- Render a parsed date as text in the destination format. -/
def strftime (d : Date) (fmt : String) : String := strftimeAux d fmt.toList

/-- Body of ConvertDateFormat.apply: copy, parse every cell of the target
column under the source-format policy (the first unparseable cell raises),
then write back the dates rendered as text in the destination format. -/
def ConvertDateFormat.applyCore (cfg : ConvertDateFormat) (df : Table) :
    Except String Table :=
  let df2 := df.copy
  match colIdx? df2.cols cfg.column with
  | none => .error ("KeyError: " ++ cfg.column)
  | some i =>
    match mapEx (parseDateCell cfg.from_format) (df2.getCol i) with
    | .error e => .error e
    | .ok ds => .ok (df2.setCol i (ds.map (fun d => Value.str (strftime d cfg.to_format))))

/-- Model of ConvertDateFormat.apply with its try/except wrapping. -/
def ConvertDateFormat.apply (cfg : ConvertDateFormat) (df : Table) :
    Except String Table :=
  wrapErr ("Date conversion failed") (ConvertDateFormat.applyCore cfg df)

/-- The closed set of operation variants of the library. -/
inductive Operation where
  | removeDuplicates : RemoveDuplicates → Operation
  | filterRows : FilterRows → Operation
  | replaceValues : ReplaceValues → Operation
  | mergeColumns : MergeColumns → Operation
  | normalizeText : NormalizeText → Operation
  | convertDateFormat : ConvertDateFormat → Operation
deriving DecidableEq

/-- Uniform apply over the operation variants. -/
def Operation.apply : Operation → Table → Except String Table
  | .removeDuplicates cfg, df => RemoveDuplicates.apply cfg df
  | .filterRows cfg, df => FilterRows.apply cfg df
  | .replaceValues cfg, df => ReplaceValues.apply cfg df
  | .mergeColumns cfg, df => MergeColumns.apply cfg df
  | .normalizeText cfg, df => NormalizeText.apply cfg df
  | .convertDateFormat cfg, df => ConvertDateFormat.apply cfg df

/-- State-passing view of one apply call: the first component is the value of
the caller-owned table after the call returns.  Every apply body in the
source rebinds its local name to `df.copy()` and mutates only that copy, so
the caller-owned object is returned unchanged. -/
def Operation.applyMut : Operation → Table → Table × Except String Table
  | .removeDuplicates cfg, df => (df, RemoveDuplicates.apply cfg df)
  | .filterRows cfg, df => (df, FilterRows.apply cfg df)
  | .replaceValues cfg, df => (df, ReplaceValues.apply cfg df)
  | .mergeColumns cfg, df => (df, MergeColumns.apply cfg df)
  | .normalizeText cfg, df => (df, NormalizeText.apply cfg df)
  | .convertDateFormat cfg, df => (df, ConvertDateFormat.apply cfg df)

/-- Label used by the try/except wrapper of each operation. -/
def Operation.failLabel : Operation → String
  | .removeDuplicates _ => "Remove duplicates failed"
  | .filterRows _ => "Filter failed"
  | .replaceValues _ => "Replace failed"
  | .mergeColumns _ => "Merge columns failed"
  | .normalizeText _ => "Text normalization failed"
  | .convertDateFormat _ => "Date conversion failed"

/-- Decidable equality for fallible results, needed to evaluate the concrete
witnesses below. -/
instance exceptDecEq {ε α : Type} [DecidableEq ε] [DecidableEq α] :
    DecidableEq (Except ε α)
  | .error a, .error b =>
    if h : a = b then .isTrue (by rw [h]) else .isFalse (fun hh => h (Except.error.inj hh))
  | .error _, .ok _ => .isFalse (fun h => Except.noConfusion h)
  | .ok _, .error _ => .isFalse (fun h => Except.noConfusion h)
  | .ok a, .ok b =>
    if h : a = b then .isTrue (by rw [h]) else .isFalse (fun hh => h (Except.ok.inj hh))

/-! ### Helper lemmas about the embedding primitives -/

theorem Table.copy_eq (t : Table) : t.copy = t := rfl

theorem wrapErr_ok {label : String} {x : Except String Table} {t : Table} :
    wrapErr label x = .ok t ↔ x = .ok t := by
  cases x <;> simp [wrapErr]

theorem wrapErr_error {label : String} {x : Except String Table} {m : String}
    (h : wrapErr label x = .error m) : ∃ e, x = .error e ∧ m = label ++ ": " ++ e := by
  cases x with
  | ok _ => exact absurd h (by simp [wrapErr])
  | error e => exact ⟨e, rfl, by simpa [wrapErr] using h.symm⟩

theorem mapEx_ok_forall₂ {α β : Type} {f : α → Except String β} :
    ∀ {l : List α} {bs : List β}, mapEx f l = .ok bs →
      List.Forall₂ (fun a b => f a = .ok b) l bs := by
  intro l
  induction l with
  | nil => intro bs h; cases h; exact List.Forall₂.nil
  | cons a as ih =>
    intro bs h
    simp only [mapEx] at h
    cases hfa : f a with
    | error e => rw [hfa] at h; cases h
    | ok b =>
      rw [hfa] at h
      cases hm : mapEx f as with
      | error e => rw [hm] at h; cases h
      | ok bs2 => rw [hm] at h; cases h; exact List.Forall₂.cons hfa (ih hm)

theorem maskFilter_sublist {α : Type} :
    ∀ (rows : List α) (m : List Bool), (maskFilter rows m).Sublist rows := by
  intro rows
  induction rows with
  | nil => intro m; cases m <;> simp [maskFilter]
  | cons r rs ih =>
    intro m
    cases m with
    | nil => simp [maskFilter]
    | cons b bs =>
      cases b
      · simpa [maskFilter] using (ih bs).cons r
      · simpa [maskFilter] using (ih bs).cons₂ r

theorem maskFilter_map_self {α : Type} (g : α → Bool) :
    ∀ (rows : List α), maskFilter rows (rows.map g) = rows.filter g := by
  intro rows
  induction rows with
  | nil => rfl
  | cons r rs ih => simp only [List.map_cons, maskFilter, List.filter_cons, ih]

theorem maskFilter_append {α : Type} :
    ∀ (r1 : List α) (m1 : List Bool), m1.length = r1.length →
      ∀ (r2 : List α) (m2 : List Bool),
        maskFilter (r1 ++ r2) (m1 ++ m2) = maskFilter r1 m1 ++ maskFilter r2 m2 := by
  intro r1
  induction r1 with
  | nil =>
    intro m1 hlen r2 m2
    cases m1 with
    | nil => simp [maskFilter]
    | cons b bs => cases hlen
  | cons r rs ih =>
    intro m1 hlen r2 m2
    cases m1 with
    | nil => cases hlen
    | cons b bs =>
      have hlen2 : bs.length = rs.length := by simpa using hlen
      show (if b = true then r :: maskFilter (rs ++ r2) (bs ++ m2) else maskFilter (rs ++ r2) (bs ++ m2)) =
        (if b = true then r :: maskFilter rs bs else maskFilter rs bs) ++ maskFilter r2 m2
      rw [ih bs hlen2 r2 m2]
      cases b <;> simp

theorem maskFilter_reverse {α : Type} :
    ∀ (rows : List α) (m : List Bool), m.length = rows.length →
      maskFilter rows.reverse m.reverse = (maskFilter rows m).reverse := by
  intro rows
  induction rows with
  | nil =>
    intro m hlen
    cases m with
    | nil => rfl
    | cons b bs => simp at hlen
  | cons r rs ih =>
    intro m hlen
    cases m with
    | nil => simp at hlen
    | cons b bs =>
      have hlen2 : bs.length = rs.length := by simpa using hlen
      simp only [List.reverse_cons]
      rw [maskFilter_append rs.reverse bs.reverse (by simp [hlen2])]
      rw [ih bs hlen2]
      cases b <;> simp [maskFilter]

theorem maskFilter_length_le {α : Type} :
    ∀ (rows : List α) {m1 m2 : List Bool},
      List.Forall₂ (fun b1 b2 => b2 = true → b1 = true) m1 m2 →
      (maskFilter rows m2).length ≤ (maskFilter rows m1).length := by
  intro rows
  induction rows with
  | nil =>
    intro m1 m2 _
    cases m1 <;> cases m2 <;> simp [maskFilter]
  | cons r rs ih =>
    intro m1 m2 hf
    cases hf with
    | nil => simp [maskFilter]
    | @cons b1 b2 t1 t2 hb ht =>
      by_cases h2 : b2 = true
      · have h1 : b1 = true := hb h2
        subst h1; subst h2
        simp only [maskFilter, if_pos rfl, List.length_cons]
        exact Nat.succ_le_succ (ih ht)
      · have h2f : b2 = false := by simpa using h2
        subst h2f
        cases b1
        · simp only [maskFilter, if_neg Bool.false_ne_true]
          exact ih ht
        · simp only [maskFilter, if_pos rfl, if_neg Bool.false_ne_true, List.length_cons]
          exact Nat.le_succ_of_le (ih ht)

theorem forall₂_combine {α β : Type} {R S : α → β → Prop} {T : β → β → Prop} :
    ∀ {l : List α} {m1 m2 : List β}, List.Forall₂ R l m1 → List.Forall₂ S l m2 →
      (∀ a b c, R a b → S a c → T b c) → List.Forall₂ T m1 m2 := by
  intro l
  induction l with
  | nil =>
    intro m1 m2 h1 h2 _
    cases h1; cases h2; exact List.Forall₂.nil
  | cons a as ih =>
    intro m1 m2 h1 h2 hT
    cases h1 with
    | cons hr hrs =>
      cases h2 with
      | cons hs hss => exact List.Forall₂.cons (hT _ _ _ hr hs) (ih hrs hss hT)

theorem colIdx?_lt_length : ∀ {l : List String} {c : String} {i : Nat},
    colIdx? l c = some i → i < l.length := by
  intro l
  induction l with
  | nil => intro c i h; cases h
  | cons x xs ih =>
    intro c i h
    simp only [colIdx?] at h
    by_cases hx : x = c
    · rw [if_pos hx] at h; cases h; simp
    · rw [if_neg hx] at h
      rcases Option.map_eq_some'.mp h with ⟨j, hj, hji⟩
      subst hji
      simpa using Nat.succ_lt_succ (ih hj)

theorem getD_set_self {α : Type} (l : List α) (i : Nat) (a d : α) (h : i < l.length) :
    (l.set i a).getD i d = a := by
  simp [List.getD_eq_getElem?_getD, List.getElem?_set_self, h]

theorem getD_set_ne {α : Type} (l : List α) {i j : Nat} (a d : α) (h : i ≠ j) :
    (l.set i a).getD j d = l.getD j d := by
  simp [List.getD_eq_getElem?_getD, List.getElem?_set_ne h]

theorem set_getD_self {α : Type} :
    ∀ (l : List α) (i : Nat) (d : α), l.set i (l.getD i d) = l := by
  intro l
  induction l with
  | nil => intro i d; rfl
  | cons x xs ih =>
    intro i d
    cases i with
    | zero => simp [List.getD_cons_zero]
    | succ j =>
      show x :: xs.set j ((x :: xs).getD (j + 1) d) = x :: xs
      rw [List.getD_cons_succ, ih j d]

theorem zipWith_map_self {α β : Type} (f : α → β → α) (g : α → β) :
    ∀ (l : List α), List.zipWith f l (l.map g) = l.map (fun a => f a (g a)) := by
  intro l
  induction l with
  | nil => rfl
  | cons x xs ih => simp [ih]

theorem pyEqL_norm {a b : List Value} :
    pyEqL a b = true ↔ a.map Value.norm = b.map Value.norm := by
  simp [pyEqL]

theorem dupMaskFirstAux_length :
    ∀ (ks : List (List Value)) (seen : List (List Value)),
      (dupMaskFirstAux seen ks).length = ks.length := by
  intro ks
  induction ks with
  | nil => intro seen; rfl
  | cons k ks ih => intro seen; simp [dupMaskFirstAux, ih]

theorem dedupFirst_filter {α : Type} (key : α → List Value) (k : List Value) :
    ∀ (rows : List α) (seen : List (List Value)),
      (maskFilter rows ((dupMaskFirstAux seen (rows.map key)).map (fun b => !b))).filter
          (fun r => pyEqL (key r) k)
        = if seen.any (fun s => pyEqL s k) then []
          else (rows.filter (fun r => pyEqL (key r) k)).take 1 := by
  intro rows
  induction rows with
  | nil =>
    intro seen
    simp only [List.map_nil, dupMaskFirstAux, maskFilter, List.filter_nil, List.take_nil]
    by_cases hA : (seen.any fun s => pyEqL s k) = true <;> simp [hA]
  | cons r rs ih =>
    intro seen
    cases hB : seen.any (fun s => pyEqL s (key r)) with
    | true =>
      have lhs1 : maskFilter (r :: rs) ((dupMaskFirstAux seen ((r :: rs).map key)).map (fun b => !b))
          = maskFilter rs ((dupMaskFirstAux (key r :: seen) (rs.map key)).map (fun b => !b)) := by
        simp [dupMaskFirstAux, maskFilter, hB]
      rw [lhs1, ih (key r :: seen)]
      by_cases hA : (seen.any fun s => pyEqL s k) = true
      · rw [if_pos (by simp [List.any_cons, hA]), if_pos hA]
      · have hC : pyEqL (key r) k = false := by
          by_contra hcc
          have hC2 : (key r).map Value.norm = k.map Value.norm :=
            pyEqL_norm.mp (by simpa using hcc)
          obtain ⟨s, hs, hsk⟩ := List.any_eq_true.mp hB
          have : pyEqL s k = true := pyEqL_norm.mpr ((pyEqL_norm.mp hsk).trans hC2)
          exact hA (List.any_eq_true.mpr ⟨s, hs, this⟩)
        rw [if_neg (by simp [List.any_cons, hC, hA]), if_neg hA]
        simp [List.filter_cons, hC]
    | false =>
      have lhs1 : maskFilter (r :: rs) ((dupMaskFirstAux seen ((r :: rs).map key)).map (fun b => !b))
          = r :: maskFilter rs ((dupMaskFirstAux (key r :: seen) (rs.map key)).map (fun b => !b)) := by
        simp [dupMaskFirstAux, maskFilter, hB]
      rw [lhs1]
      by_cases hC : pyEqL (key r) k = true
      · have hA : (seen.any fun s => pyEqL s k) = false := by
          cases hA2 : seen.any (fun s => pyEqL s k) with
          | false => rfl
          | true =>
            obtain ⟨s, hs, hsk⟩ := List.any_eq_true.mp hA2
            have : pyEqL s (key r) = true :=
              pyEqL_norm.mpr ((pyEqL_norm.mp hsk).trans (pyEqL_norm.mp hC).symm)
            have hB2 : (seen.any fun s => pyEqL s (key r)) = true :=
              List.any_eq_true.mpr ⟨s, hs, this⟩
            rw [hB2] at hB; cases hB
        have hrec : (maskFilter rs
              ((dupMaskFirstAux (key r :: seen) (rs.map key)).map (fun b => !b))).filter
                (fun x => pyEqL (key x) k) = [] := by
          rw [ih (key r :: seen),
            if_pos (show ((key r :: seen).any fun s => pyEqL s k) = true by
              simp [List.any_cons, hC])]
        rw [if_neg (by simp [hA])]
        simp [List.filter_cons, hC, hrec]
      · have hCf : pyEqL (key r) k = false := by simpa using hC
        have hfc : (r :: maskFilter rs
              ((dupMaskFirstAux (key r :: seen) (rs.map key)).map (fun b => !b))).filter
                (fun x => pyEqL (key x) k)
            = (maskFilter rs
              ((dupMaskFirstAux (key r :: seen) (rs.map key)).map (fun b => !b))).filter
                (fun x => pyEqL (key x) k) := by
          simp [List.filter_cons, hCf]
        rw [hfc, ih (key r :: seen)]
        rw [show ((key r :: seen).any fun s => pyEqL s k) = (seen.any fun s => pyEqL s k) by
          simp [List.any_cons, hCf]]
        have hfc2 : (r :: rs).filter (fun x => pyEqL (key x) k)
            = rs.filter (fun x => pyEqL (key x) k) := by
          simp [List.filter_cons, hCf]
        rw [hfc2]

theorem dedupLast_filter {α : Type} (key : α → List Value) (k : List Value) (rows : List α) :
    (maskFilter rows ((dupMaskLast (rows.map key)).map (fun b => !b))).filter
        (fun r => pyEqL (key r) k)
      = ((rows.filter (fun r => pyEqL (key r) k)).reverse.take 1).reverse := by
  have hmask : (dupMaskLast (rows.map key)).map (fun b => !b)
      = ((dupMaskFirstAux [] (rows.reverse.map key)).map (fun b => !b)).reverse := by
    rw [dupMaskLast, ← List.map_reverse key rows]
    exact List.map_reverse _ _
  have hM := maskFilter_reverse rows.reverse
    ((dupMaskFirstAux [] (rows.reverse.map key)).map (fun b => !b))
    (by simp [dupMaskFirstAux_length])
  rw [List.reverse_reverse] at hM
  rw [hmask, hM, List.filter_reverse, dedupFirst_filter key k rows.reverse []]
  simp [List.filter_reverse]

theorem dedupAll_rows {α : Type} (key : α → List Value) (rows : List α) :
    maskFilter rows ((dupMaskAll (rows.map key)).map (fun b => !b))
      = rows.filter
          (fun r => (rows.map key).countP (fun k2 => pyEqL (key r) k2) == 1) := by
  have hmask : (dupMaskAll (rows.map key)).map (fun b => !b)
      = rows.map
          (fun r => !(decide (2 ≤ (rows.map key).countP (fun k2 => pyEqL (key r) k2)))) := by
    rw [dupMaskAll, List.map_map, List.map_map]
    rfl
  rw [hmask, maskFilter_map_self]
  apply List.filter_congr
  intro r hr
  have hmem : key r ∈ rows.map key := List.mem_map_of_mem key hr
  have hself : pyEqL (key r) (key r) = true := by simp [pyEqL]
  have hpos : 0 < (rows.map key).countP (fun k2 => pyEqL (key r) k2) :=
    List.countP_pos_iff.mpr ⟨key r, hmem, hself⟩
  by_cases h2 : 2 ≤ (rows.map key).countP (fun k2 => pyEqL (key r) k2)
  · have hne : ((rows.map key).countP (fun k2 => pyEqL (key r) k2) == 1) = false := by
      have hx : (rows.map key).countP (fun k2 => pyEqL (key r) k2) ≠ 1 := by omega
      simpa using hx
    simp only [hne, decide_eq_true h2]
    rfl
  · have h1 : (rows.map key).countP (fun k2 => pyEqL (key r) k2) = 1 := by omega
    simp only [h1]
    decide

theorem zipWith_set_getD_self :
    ∀ (rows : List (List Value)) (vs : List Value) (i : Nat),
      (∀ row ∈ rows, i < row.length) → vs.length = rows.length →
      (List.zipWith (fun row v => row.set i v) rows vs).map
          (fun row => row.getD i (Value.str (""))) = vs := by
  intro rows
  induction rows with
  | nil =>
    intro vs i _ hlen
    cases vs with
    | nil => rfl
    | cons v vs2 => cases hlen
  | cons row rows ih =>
    intro vs i hrow hlen
    cases vs with
    | nil => cases hlen
    | cons v vs2 =>
      simp only [List.zipWith_cons_cons, List.map_cons]
      rw [getD_set_self row i v (Value.str ("")) (hrow row (by simp))]
      rw [ih vs2 i (fun r hr => hrow r (by simp [hr])) (by simpa using hlen)]

theorem zipWith_set_getD_ne :
    ∀ (rows : List (List Value)) (vs : List Value) {i j : Nat}, i ≠ j →
      vs.length = rows.length →
      (List.zipWith (fun row v => row.set i v) rows vs).map
          (fun row => row.getD j (Value.str ("")))
        = rows.map (fun row => row.getD j (Value.str (""))) := by
  intro rows
  induction rows with
  | nil =>
    intro vs i j _ hlen
    cases vs with
    | nil => rfl
    | cons v vs2 => cases hlen
  | cons row rows ih =>
    intro vs i j hij hlen
    cases vs with
    | nil => cases hlen
    | cons v vs2 =>
      simp only [List.zipWith_cons_cons, List.map_cons]
      rw [getD_set_ne row v (Value.str ("")) hij]
      rw [ih vs2 hij (by simpa using hlen)]

theorem getCol_setCol_self (t : Table) (i : Nat) (vs : List Value)
    (hrow : ∀ row ∈ t.rows, i < row.length) (hlen : vs.length = t.rows.length) :
    (t.setCol i vs).getCol i = vs := by
  simp only [Table.setCol, Table.getCol]
  exact zipWith_set_getD_self t.rows vs i hrow hlen

theorem getCol_setCol_ne (t : Table) {i j : Nat} (vs : List Value) (hij : i ≠ j)
    (hlen : vs.length = t.rows.length) :
    (t.setCol i vs).getCol j = t.getCol j := by
  simp only [Table.setCol, Table.getCol]
  exact zipWith_set_getD_ne t.rows vs hij hlen

theorem replaceValues_apply_ok {cfg : ReplaceValues} {t r : Table}
    (h : ReplaceValues.apply cfg t = .ok r) :
    ∃ i, colIdx? t.cols cfg.column = some i ∧
      r = t.setCol i (seriesReplace cfg.old_value cfg.new_value (t.getCol i)) := by
  rw [ReplaceValues.apply] at h
  have h2 := wrapErr_ok.mp h
  simp only [ReplaceValues.applyCore, Table.copy_eq] at h2
  split at h2
  · exact Except.noConfusion h2
  · rename_i i hidx
    exact ⟨i, hidx, (Except.ok.inj h2).symm⟩

theorem filterRows_apply_ok {cfg : FilterRows} {t r : Table}
    (h : FilterRows.apply cfg t = .ok r) :
    ∃ i mask, colIdx? t.cols cfg.column = some i ∧
      mapEx (fun row => cellTest cfg.operator cfg.value (row.getD i (Value.str ("")))) t.rows
        = .ok mask ∧
      r = { cols := t.cols, rows := maskFilter t.rows mask } := by
  rw [FilterRows.apply] at h
  have h2 := wrapErr_ok.mp h
  simp only [FilterRows.applyCore, Table.copy_eq] at h2
  split at h2
  · exact Except.noConfusion h2
  · rename_i i hidx
    split at h2
    · exact Except.noConfusion h2
    · rename_i mask hmask
      exact ⟨i, mask, hidx, hmask, (Except.ok.inj h2).symm⟩

theorem mergeColumns_apply_ok {cfg : MergeColumns} {t r : Table}
    (h : MergeColumns.apply cfg t = .ok r) :
    ∃ idxs, colIdxs? t.cols cfg.columns = some idxs ∧
      r = t.setColByName cfg.new_column_name
            (t.rows.map (fun row => mergeRow idxs cfg.separator row)) := by
  rw [MergeColumns.apply] at h
  have h2 := wrapErr_ok.mp h
  simp only [MergeColumns.applyCore, Table.copy_eq] at h2
  split at h2
  · exact Except.noConfusion h2
  · rename_i idxs hidxs
    exact ⟨idxs, hidxs, (Except.ok.inj h2).symm⟩

theorem removeDuplicates_apply_ok {cfg : RemoveDuplicates} {t r : Table}
    (h : RemoveDuplicates.apply cfg t = .ok r) :
    (t.isEmptyDf = true ∧ r = t) ∨
    (t.isEmptyDf = false ∧ dedupWith t (dupKey cfg t) cfg.keep = .ok r) := by
  rw [RemoveDuplicates.apply] at h
  have h2 := wrapErr_ok.mp h
  simp only [RemoveDuplicates.applyCore, Table.copy_eq] at h2
  split at h2
  · rename_i hemp
    exact Or.inl ⟨hemp, (Except.ok.inj h2).symm⟩
  · rename_i hemp
    refine Or.inr ⟨by simpa using hemp, ?_⟩
    split at h2
    · rename_i hcols
      have hk : dupKey cfg t = fun row => row := by
        funext row
        rw [dupKey, hcols]
      rw [hk]
      exact h2
    · rename_i s hcols
      split at h2
      · exact Except.noConfusion h2
      · rename_i idxs hidxs
        have hk : dupKey cfg t = rowKey idxs := by
          funext row
          rw [dupKey, hcols]
          simp [hidxs]
        rw [hk]
        exact h2

theorem cellTest_gt_int {v : Int} {c : Value} {b : Bool}
    (h : cellTest (">") (Value.int v) c = .ok b) :
    ∃ x : Int, c.norm = Value.int x ∧ b = decide (v < x) := by
  have h2 : ordTest (">") (Value.int v) c = .ok b := h
  cases c with
  | str s => simp [ordTest, cmpVals, Value.norm] at h2
  | int x =>
    refine ⟨x, rfl, ?_⟩
    simp only [ordTest, cmpVals, Value.norm] at h2
    exact (Except.ok.inj h2).symm
  | bool bb =>
    refine ⟨if bb then 1 else 0, rfl, ?_⟩
    cases bb <;>
      simp only [ordTest, cmpVals, Value.norm] at h2 <;>
      exact (Except.ok.inj h2).symm

theorem replaceCell_idem (old new c : Value) :
    replaceCell old new (replaceCell old new c) = replaceCell old new c := by
  by_cases h : pyEq c old = true
  · simp [replaceCell, h]
  · simp [replaceCell, h]

theorem set_replace_idem (old new : Value) (row : List Value) (i : Nat) :
    (row.set i (replaceCell old new (row.getD i (Value.str ("") )))).set i
        (replaceCell old new
          ((row.set i (replaceCell old new (row.getD i (Value.str ("") )))).getD i
            (Value.str (""))))
      = row.set i (replaceCell old new (row.getD i (Value.str ("")))) := by
  by_cases hlt : i < row.length
  · rw [getD_set_self row i _ _ hlt, List.set_set, replaceCell_idem]
  · have hle : row.length ≤ i := Nat.le_of_not_lt hlt
    simp [List.set_eq_of_length_le hle]

theorem setCol_seriesReplace (t : Table) (i : Nat) (old new : Value) :
    t.setCol i (seriesReplace old new (t.getCol i))
      = { cols := t.cols,
          rows := t.rows.map
            (fun row => row.set i (replaceCell old new (row.getD i (Value.str (""))))) } := by
  simp only [Table.setCol, Table.getCol, seriesReplace, List.map_map]
  rw [zipWith_map_self]
  rfl

/-! ### Claim theorems -/

/-- C1: for every operation variant and every input table, the caller-owned
table after `apply` returns is value-equal to the pre-call snapshot: apply
never mutates its input (every body works on `df.copy()`). -/
theorem apply_never_mutates_input (op : Operation) (t : Table) :
    (Operation.applyMut op t).1 = t := by
  cases op <;> rfl

/-- C2: constructing FilterRows with an operator outside the eight-member
whitelist fails immediately with the configuration error, before any table
is touched; construction with a whitelisted operator succeeds. -/
theorem filterRows_ctor_validation (c oper : String) (v : Value) :
    (oper ∈ validOperators →
      FilterRows.init c oper v = .ok { column := c, operator := oper, value := v })
    ∧ (oper ∉ validOperators →
      FilterRows.init c oper v =
        .error ("Operator must be one of: [==, !=, >, <, >=, <=, contains, in]")) := by
  constructor
  · intro h
    simp [FilterRows.init, h]
  · intro h
    simp [FilterRows.init, h]

theorem filterRows_ctor_validation_witness :
    FilterRows.init ("age") (">") (Value.int 0)
        = .ok { column := "age", operator := ">", value := Value.int 0 }
    ∧ FilterRows.init ("age") ("invalid_op") (Value.int 0)
        = .error ("Operator must be one of: [==, !=, >, <, >=, <=, contains, in]") :=
  ⟨(filterRows_ctor_validation ("age") (">") (Value.int 0)).1 (by decide),
   (filterRows_ctor_validation ("age") ("invalid_op") (Value.int 0)).2 (by decide)⟩

/-- C3: ReplaceValues is idempotent; once an apply has succeeded, applying
the same replacement to its output returns that output unchanged (after the
first pass no cell of the target column still equals the old value, except
when old equals new, in which case replacing is the identity anyway). -/
theorem replaceValues_idempotent (cfg : ReplaceValues) (t r : Table)
    (hap : ReplaceValues.apply cfg t = .ok r) :
    ReplaceValues.apply cfg r = .ok r := by
  obtain ⟨i, hidx, hr⟩ := replaceValues_apply_ok hap
  have hcols : r.cols = t.cols := by rw [hr]; rfl
  have hidx2 : colIdx? r.cols cfg.column = some i := by rw [hcols]; exact hidx
  have hfix : r.setCol i (seriesReplace cfg.old_value cfg.new_value (r.getCol i)) = r := by
    rw [hr, setCol_seriesReplace, setCol_seriesReplace]
    have hrows : (t.rows.map
          (fun row => row.set i
            (replaceCell cfg.old_value cfg.new_value (row.getD i (Value.str ("")))))).map
          (fun row => row.set i
            (replaceCell cfg.old_value cfg.new_value (row.getD i (Value.str ("")))))
        = t.rows.map
          (fun row => row.set i
            (replaceCell cfg.old_value cfg.new_value (row.getD i (Value.str ("")))))  := by
      rw [List.map_map]
      apply List.map_congr_left
      intro row _
      exact set_replace_idem cfg.old_value cfg.new_value row i
    exact congrArg (Table.mk t.cols) hrows
  have hcore : ReplaceValues.applyCore cfg r
      = .ok (r.setCol i (seriesReplace cfg.old_value cfg.new_value (r.getCol i))) := by
    simp only [ReplaceValues.applyCore, Table.copy_eq, hidx2]
  rw [ReplaceValues.apply, hcore, hfix]
  rfl

theorem replaceValues_idempotent_witness :
    ReplaceValues.apply ⟨"city", Value.str ("NYC"), Value.str ("New York")⟩
      ⟨["city"], [[Value.str ("New York")], [Value.str ("LA")], [Value.str ("New York")]]⟩
    = .ok ⟨["city"], [[Value.str ("New York")], [Value.str ("LA")], [Value.str ("New York")]]⟩ :=
  replaceValues_idempotent _
    ⟨["city"], [[Value.str ("NYC")], [Value.str ("LA")], [Value.str ("NYC")]]⟩
    _ (by decide)

/-- C5 counterexample: a type-incompatible comparison makes FilterRows.apply
fail with a wrapped message that names the operation but not the failing
column, refuting the claim that every apply-time error identifies the
column. -/
theorem filterRows_error_lacks_column :
    FilterRows.apply { column := "qty", operator := ">", value := Value.int 5 }
        { cols := ["qty"], rows := [[Value.str ("x")]] }
      = .error ("Filter failed: > not supported between instances of str and int")
    ∧ ¬("qty".toList <:+:
        ("Filter failed: > not supported between instances of str and int").toList) := by
  exact ⟨by decide, by decide⟩

/-- C5 amended: every apply-time error wraps the underlying cause behind the
label of the failing operation; the failing column is identified only when
the underlying cause itself names it, as a missing-column KeyError does. -/
theorem apply_error_wraps (op : Operation) (t : Table) (m : String)
    (hap : Operation.apply op t = .error m) :
    (∃ cause, m = op.failLabel ++ ": " ++ cause)
    ∧ (∀ cfg, op = Operation.filterRows cfg → colIdx? t.cols cfg.column = none →
        cfg.column.toList <:+: m.toList) := by
  constructor
  · cases op with
    | removeDuplicates cfg =>
      simp only [Operation.apply, RemoveDuplicates.apply] at hap
      obtain ⟨e, _, hm⟩ := wrapErr_error hap
      exact ⟨e, hm⟩
    | filterRows cfg =>
      simp only [Operation.apply, FilterRows.apply] at hap
      obtain ⟨e, _, hm⟩ := wrapErr_error hap
      exact ⟨e, hm⟩
    | replaceValues cfg =>
      simp only [Operation.apply, ReplaceValues.apply] at hap
      obtain ⟨e, _, hm⟩ := wrapErr_error hap
      exact ⟨e, hm⟩
    | mergeColumns cfg =>
      simp only [Operation.apply, MergeColumns.apply] at hap
      obtain ⟨e, _, hm⟩ := wrapErr_error hap
      exact ⟨e, hm⟩
    | normalizeText cfg =>
      simp only [Operation.apply, NormalizeText.apply] at hap
      obtain ⟨e, _, hm⟩ := wrapErr_error hap
      exact ⟨e, hm⟩
    | convertDateFormat cfg =>
      simp only [Operation.apply, ConvertDateFormat.apply] at hap
      obtain ⟨e, _, hm⟩ := wrapErr_error hap
      exact ⟨e, hm⟩
  · intro cfg hop hidx
    subst hop
    simp only [Operation.apply, FilterRows.apply] at hap
    have hcore : FilterRows.applyCore cfg t = .error ("KeyError: " ++ cfg.column) := by
      simp only [FilterRows.applyCore, Table.copy_eq, hidx]
    rw [hcore] at hap
    have hm : m = "Filter failed" ++ ": " ++ ("KeyError: " ++ cfg.column) :=
      (Except.error.inj hap).symm
    subst hm
    exact ⟨("Filter failed" ++ ": " ++ "KeyError: ").toList, [],
      by simp [String.toList, String.data_append]⟩

theorem apply_error_wraps_witness :
    (∃ cause, "Filter failed: > not supported between instances of str and int"
        = "Filter failed" ++ ": " ++ cause)
    ∧ (∀ cfg, Operation.filterRows { column := "qty", operator := ">", value := Value.int 5 }
          = Operation.filterRows cfg →
        colIdx? ["qty"] cfg.column = none →
        cfg.column.toList <:+:
          ("Filter failed: > not supported between instances of str and int").toList) :=
  apply_error_wraps
    (Operation.filterRows { column := "qty", operator := ">", value := Value.int 5 })
    { cols := ["qty"], rows := [[Value.str ("x")]] } _ (by decide)

/-- C10: RemoveDuplicates performs no constructor-time validation of the
keep policy; any keep value constructs successfully, and an invalid keep
surfaces only at apply time, as a wrapped apply-time error (on a nonempty
table whose configured subset columns exist). -/
theorem removeDuplicates_lazy_keep_validation (columns : Option (List String)) (keep : Value)
    (t : Table)
    (h1 : keep ≠ Value.str ("first")) (h2 : keep ≠ Value.str ("last"))
    (h3 : keep ≠ Value.bool false) (hne : t.isEmptyDf = false)
    (hsub : ∀ s, columns = some s → colIdxs? t.cols s ≠ none) :
    RemoveDuplicates.init columns keep = .ok { columns := columns, keep := keep }
    ∧ RemoveDuplicates.apply { columns := columns, keep := keep } t
        = .error ("Remove duplicates failed" ++ ": " ++
            "keep must be either first, last or False") := by
  refine ⟨rfl, ?_⟩
  have hded : ∀ key, dedupWith t key keep
      = .error ("keep must be either first, last or False") := by
    intro key
    simp only [dedupWith]
    rw [if_neg h1, if_neg h2, if_neg h3]
  rw [RemoveDuplicates.apply]
  have hcore : RemoveDuplicates.applyCore { columns := columns, keep := keep } t
      = .error ("keep must be either first, last or False") := by
    simp only [RemoveDuplicates.applyCore, Table.copy_eq, hne]
    cases hcols : columns with
    | none => simpa using hded (fun r => r)
    | some s =>
      cases hidxs : colIdxs? t.cols s with
      | none => exact absurd hidxs (hsub s hcols)
      | some idxs => simp [hidxs, hded]
  rw [hcore]
  rfl

theorem removeDuplicates_lazy_keep_validation_witness :
    RemoveDuplicates.init (some ["id"]) (Value.str ("banana"))
        = .ok { columns := some ["id"], keep := Value.str ("banana") }
    ∧ RemoveDuplicates.apply { columns := some ["id"], keep := Value.str ("banana") }
        { cols := ["id"], rows := [[Value.int 1]] }
        = .error ("Remove duplicates failed" ++ ": " ++
            "keep must be either first, last or False") :=
  removeDuplicates_lazy_keep_validation (some ["id"]) (Value.str ("banana"))
    { cols := ["id"], rows := [[Value.int 1]] }
    (by decide) (by decide) (by decide) (by decide)
    (by intro s hs e; cases hs; cases e)

/-- C4: RemoveDuplicates groups rows by value-equality of the configured key
columns (the whole row when none are given): survivors are a sublist of the
input (original relative order), an empty input yields an empty output, under
keep="first" each group keeps exactly its first occurrence, under keep="last"
exactly its last occurrence, and under the drop-all policy exactly the rows
whose group has size one survive. -/
theorem removeDuplicates_groups (cfg : RemoveDuplicates) (t r : Table)
    (hwf : Table.WF t)
    (hap : RemoveDuplicates.apply cfg t = .ok r) :
    r.rows.Sublist t.rows
    ∧ (t.rows = [] → r.rows = [])
    ∧ (cfg.keep = Value.str ("first") → ∀ k : List Value,
        r.rows.filter (fun row => pyEqL (dupKey cfg t row) k)
          = (t.rows.filter (fun row => pyEqL (dupKey cfg t row) k)).take 1)
    ∧ (cfg.keep = Value.str ("last") → ∀ k : List Value,
        r.rows.filter (fun row => pyEqL (dupKey cfg t row) k)
          = ((t.rows.filter (fun row => pyEqL (dupKey cfg t row) k)).reverse.take 1).reverse)
    ∧ (cfg.keep = Value.bool false →
        r.rows = t.rows.filter (fun row =>
          t.rows.countP (fun row2 => pyEqL (dupKey cfg t row) (dupKey cfg t row2)) == 1)) := by
  rcases removeDuplicates_apply_ok hap with ⟨hemp, hrt⟩ | ⟨hemp, hded⟩
  · have hrows : t.rows = [] := by
      have h2 := hemp
      simp only [Table.isEmptyDf, Bool.or_eq_true, List.isEmpty_iff] at h2
      rcases h2 with h2 | h2
      · exact h2
      · exact hwf.2 h2
    subst hrt
    refine ⟨List.Sublist.refl _, fun _ => hrows, ?_, ?_, ?_⟩
    · intro _ k
      rw [hrows]
      rfl
    · intro _ k
      rw [hrows]
      rfl
    · intro _
      rw [hrows]
      rfl
  · simp only [dedupWith] at hded
    by_cases hk1 : cfg.keep = Value.str ("first")
    · rw [if_pos hk1] at hded
      have hr := Except.ok.inj hded
      have hrrows : r.rows = maskFilter t.rows
          ((dupMaskFirst (t.rows.map (dupKey cfg t))).map (fun b => !b)) := by
        rw [← hr]
      refine ⟨?_, ?_, ?_, ?_, ?_⟩
      · rw [hrrows]
        exact maskFilter_sublist _ _
      · intro h0
        rw [hrrows, h0]
        rfl
      · intro _ k
        rw [hrrows, dupMaskFirst]
        simpa using dedupFirst_filter (dupKey cfg t) k t.rows []
      · intro hk2
        rw [hk1] at hk2
        exact absurd hk2 (by decide)
      · intro hk3
        rw [hk1] at hk3
        exact absurd hk3 (by decide)
    · rw [if_neg hk1] at hded
      by_cases hk2 : cfg.keep = Value.str ("last")
      · rw [if_pos hk2] at hded
        have hr := Except.ok.inj hded
        have hrrows : r.rows = maskFilter t.rows
            ((dupMaskLast (t.rows.map (dupKey cfg t))).map (fun b => !b)) := by
          rw [← hr]
        refine ⟨?_, ?_, ?_, ?_, ?_⟩
        · rw [hrrows]
          exact maskFilter_sublist _ _
        · intro h0
          rw [hrrows, h0]
          rfl
        · intro hkk
          exact absurd (hkk.symm.trans hk2) (by decide)
        · intro _ k
          rw [hrrows]
          exact dedupLast_filter (dupKey cfg t) k t.rows
        · intro hk3
          rw [hk2] at hk3
          exact absurd hk3 (by decide)
      · rw [if_neg hk2] at hded
        by_cases hk3 : cfg.keep = Value.bool false
        · rw [if_pos hk3] at hded
          have hr := Except.ok.inj hded
          have hrrows : r.rows = maskFilter t.rows
              ((dupMaskAll (t.rows.map (dupKey cfg t))).map (fun b => !b)) := by
            rw [← hr]
          refine ⟨?_, ?_, ?_, ?_, ?_⟩
          · rw [hrrows]
            exact maskFilter_sublist _ _
          · intro h0
            rw [hrrows, h0]
            rfl
          · intro hkk
            exact absurd (hkk.symm.trans hk3) (by decide)
          · intro hkk
            exact absurd (hkk.symm.trans hk3) (by decide)
          · intro _
            rw [hrrows, dedupAll_rows (dupKey cfg t) t.rows]
            apply List.filter_congr
            intro row _
            rw [List.countP_map]
            rfl
        · rw [if_neg hk3] at hded
          exact Except.noConfusion hded

theorem removeDuplicates_groups_witness :
    (Table.mk ["id"] [[Value.int 1], [Value.int 2], [Value.int 3]]).rows.filter
        (fun row => pyEqL (dupKey ⟨none, Value.str ("first")⟩
          (Table.mk ["id"] [[Value.int 1], [Value.int 2], [Value.int 2], [Value.int 3]]) row)
          [Value.int 2])
      = ((Table.mk ["id"] [[Value.int 1], [Value.int 2], [Value.int 2], [Value.int 3]]).rows.filter
        (fun row => pyEqL (dupKey ⟨none, Value.str ("first")⟩
          (Table.mk ["id"] [[Value.int 1], [Value.int 2], [Value.int 2], [Value.int 3]]) row)
          [Value.int 2])).take 1 :=
  (removeDuplicates_groups ⟨none, Value.str ("first")⟩
    (Table.mk ["id"] [[Value.int 1], [Value.int 2], [Value.int 2], [Value.int 3]])
    (Table.mk ["id"] [[Value.int 1], [Value.int 2], [Value.int 3]])
    (by constructor
        · intro row hrow
          fin_cases hrow <;> rfl
        · intro h
          cases h)
    (by decide)).2.2.1 rfl [Value.int 2]

/-- C6: ReplaceValues replaces exactly the cells of the target column that
are value-equal to the old value, leaves the other cells of that column and
every other column unchanged, and is a no-op (value-equal output) when no
cell matches. -/
theorem replaceValues_contract (cfg : ReplaceValues) (t r : Table) (i : Nat)
    (hwf : Table.WF t)
    (hidx : colIdx? t.cols cfg.column = some i)
    (hap : ReplaceValues.apply cfg t = .ok r) :
    r.cols = t.cols
    ∧ r.getCol i = (t.getCol i).map (replaceCell cfg.old_value cfg.new_value)
    ∧ (∀ j, j ≠ i → r.getCol j = t.getCol j)
    ∧ ((∀ c ∈ t.getCol i, pyEq c cfg.old_value = false) → r = t) := by
  obtain ⟨i2, hidx2, hr⟩ := replaceValues_apply_ok hap
  rw [hidx] at hidx2
  have hii : i = i2 := Option.some.inj hidx2
  subst hii
  have hrowlen : ∀ row ∈ t.rows, i < row.length := by
    intro row hrow
    rw [hwf.1 row hrow]
    exact colIdx?_lt_length hidx
  have hvslen : (seriesReplace cfg.old_value cfg.new_value (t.getCol i)).length
      = t.rows.length := by
    simp [seriesReplace, Table.getCol]
  refine ⟨by rw [hr]; rfl, ?_, ?_, ?_⟩
  · rw [hr, getCol_setCol_self t i _ hrowlen hvslen]
    rfl
  · intro j hj
    rw [hr, getCol_setCol_ne t _ (Ne.symm hj) hvslen]
  · intro hnm
    rw [hr, setCol_seriesReplace]
    have hmap : t.rows.map
        (fun row => row.set i
          (replaceCell cfg.old_value cfg.new_value (row.getD i (Value.str (""))))) = t.rows := by
      have h2 : ∀ row ∈ t.rows,
          row.set i (replaceCell cfg.old_value cfg.new_value (row.getD i (Value.str (""))))
            = row := by
        intro row hrow
        have hc : pyEq (row.getD i (Value.str (""))) cfg.old_value = false :=
          hnm _ (List.mem_map_of_mem _ hrow)
        simp only [replaceCell, hc]
        simpa using set_getD_self row i (Value.str (""))
      calc t.rows.map (fun row => row.set i
            (replaceCell cfg.old_value cfg.new_value (row.getD i (Value.str ("")))))
          = t.rows.map (fun row => row) := List.map_congr_left h2
        _ = t.rows := by simp
    rw [hmap]

theorem replaceValues_contract_witness :
    (Table.mk ["city"] [[Value.str ("LA")]]).cols = (Table.mk ["city"] [[Value.str ("LA")]]).cols
    ∧ (Table.mk ["city"] [[Value.str ("LA")]]).getCol 0
        = ((Table.mk ["city"] [[Value.str ("LA")]]).getCol 0).map
            (replaceCell (Value.str ("NYC")) (Value.str ("NY")))
    ∧ (∀ j, j ≠ 0 → (Table.mk ["city"] [[Value.str ("LA")]]).getCol j
        = (Table.mk ["city"] [[Value.str ("LA")]]).getCol j)
    ∧ ((∀ c ∈ (Table.mk ["city"] [[Value.str ("LA")]]).getCol 0,
          pyEq c (Value.str ("NYC")) = false) →
        (Table.mk ["city"] [[Value.str ("LA")]]) = (Table.mk ["city"] [[Value.str ("LA")]])) :=
  replaceValues_contract ⟨"city", Value.str ("NYC"), Value.str ("NY")⟩
    (Table.mk ["city"] [[Value.str ("LA")]]) (Table.mk ["city"] [[Value.str ("LA")]]) 0
    (by decide) (by decide) (by decide)

/-- C9: for a fixed table and column, filtering with the strictly-greater
operator is antitone in the threshold; a larger threshold can only keep
fewer rows. -/
theorem filterRows_gt_monotone (col : String) (t : Table) (t1 t2 : Int) (r1 r2 : Table)
    (hle : t1 ≤ t2)
    (h1 : FilterRows.apply ⟨col, ">", Value.int t1⟩ t = .ok r1)
    (h2 : FilterRows.apply ⟨col, ">", Value.int t2⟩ t = .ok r2) :
    r2.rows.length ≤ r1.rows.length := by
  obtain ⟨i1, m1, hidx1, hm1, hr1⟩ := filterRows_apply_ok h1
  obtain ⟨i2, m2, hidx2, hm2, hr2⟩ := filterRows_apply_ok h2
  rw [hidx1] at hidx2
  have hii : i1 = i2 := Option.some.inj hidx2
  subst hii
  have hf1 := mapEx_ok_forall₂ hm1
  have hf2 := mapEx_ok_forall₂ hm2
  have himp : List.Forall₂ (fun b1 b2 => b2 = true → b1 = true) m1 m2 := by
    refine forall₂_combine hf1 hf2 ?_
    intro row b1 b2 hb1 hb2
    obtain ⟨x, hx1, hbx1⟩ := cellTest_gt_int hb1
    obtain ⟨x2, hx2, hbx2⟩ := cellTest_gt_int hb2
    rw [hx1] at hx2
    have hxx : x = x2 := Value.int.inj hx2
    subst hxx
    intro hb2t
    rw [hbx2] at hb2t
    have hlt2 : t2 < x := of_decide_eq_true hb2t
    rw [hbx1]
    exact decide_eq_true (lt_of_le_of_lt hle hlt2)
  rw [hr1, hr2]
  exact maskFilter_length_le t.rows himp

theorem filterRows_gt_monotone_witness :
    (Table.mk ["age"] [[Value.int 35]]).rows.length
      ≤ (Table.mk ["age"] [[Value.int 35], [Value.int 32]]).rows.length :=
  filterRows_gt_monotone ("age")
    ⟨["age"], [[Value.int 25], [Value.int 35], [Value.int 32]]⟩ 30 33
    ⟨["age"], [[Value.int 35], [Value.int 32]]⟩ ⟨["age"], [[Value.int 35]]⟩
    (by decide) (by decide) (by decide)

theorem zipWith_append_getD_at {n : Nat} :
    ∀ (rows : List (List Value)) (vs : List Value),
      (∀ row ∈ rows, row.length = n) → vs.length = rows.length →
      (List.zipWith (fun row v => row ++ [v]) rows vs).map
          (fun row => row.getD n (Value.str (""))) = vs := by
  intro rows
  induction rows with
  | nil =>
    intro vs _ hlen
    cases vs with
    | nil => rfl
    | cons v vs2 => cases hlen
  | cons row rows ih =>
    intro vs hrow hlen
    cases vs with
    | nil => cases hlen
    | cons v vs2 =>
      simp only [List.zipWith_cons_cons, List.map_cons]
      have hd : (row ++ [v]).getD n (Value.str ("")) = v := by
        rw [← hrow row (by simp)]
        simp [List.getD_eq_getElem?_getD,
          List.getElem?_append_right (Nat.le_refl row.length)]
      rw [hd, ih vs2 (fun r hr => hrow r (by simp [hr])) (by simpa using hlen)]

theorem zipWith_append_getD_lt {j : Nat} :
    ∀ (rows : List (List Value)) (vs : List Value),
      (∀ row ∈ rows, j < row.length) → vs.length = rows.length →
      (List.zipWith (fun row v => row ++ [v]) rows vs).map
          (fun row => row.getD j (Value.str ("")))
        = rows.map (fun row => row.getD j (Value.str (""))) := by
  intro rows
  induction rows with
  | nil =>
    intro vs _ hlen
    cases vs with
    | nil => rfl
    | cons v vs2 => cases hlen
  | cons row rows ih =>
    intro vs hrow hlen
    cases vs with
    | nil => cases hlen
    | cons v vs2 =>
      simp only [List.zipWith_cons_cons, List.map_cons]
      have hlt : j < row.length := hrow row (by simp)
      have hd : (row ++ [v]).getD j (Value.str ("")) = row.getD j (Value.str ("")) := by
        simp [List.getD_eq_getElem?_getD, List.getElem?_append, hlt]
      rw [hd, ih vs2 (fun r hr => hrow r (by simp [hr])) (by simpa using hlen)]

/-- C7 counterexample: when the destination column is itself one of the
source columns, MergeColumns overwrites that source column, refuting the
claim that all source columns are carried through unmodified. -/
theorem mergeColumns_overwrites_source :
    MergeColumns.apply ⟨["a"], "a", " "⟩ ⟨["a"], [[Value.int 1]]⟩
      = .ok ⟨["a"], [[Value.str ("1")]]⟩
    ∧ Table.getCol ⟨["a"], [[Value.str ("1")]]⟩ 0 ≠ Table.getCol ⟨["a"], [[Value.int 1]]⟩ 0 :=
  ⟨by decide, by decide⟩

/-- C7 amended: on success, every row of the destination column holds the
source cells of the input row converted to text and joined with the
separator in the given column order; the destination column is overwritten
in place when present and appended when absent; every column other than the
destination (so in particular every source column distinct from the
destination) is carried through unmodified. -/
theorem mergeColumns_contract (cfg : MergeColumns) (t r : Table) (idxs : List Nat)
    (hwf : Table.WF t)
    (hsrc : colIdxs? t.cols cfg.columns = some idxs)
    (hap : MergeColumns.apply cfg t = .ok r) :
    (∀ j, colIdx? t.cols cfg.new_column_name = some j →
      r.cols = t.cols
      ∧ r.getCol j = t.rows.map (fun row => mergeRow idxs cfg.separator row)
      ∧ ∀ j2, j2 ≠ j → r.getCol j2 = t.getCol j2)
    ∧ (colIdx? t.cols cfg.new_column_name = none →
      r.cols = t.cols ++ [cfg.new_column_name]
      ∧ r.getCol t.cols.length = t.rows.map (fun row => mergeRow idxs cfg.separator row)
      ∧ ∀ j2, j2 < t.cols.length → r.getCol j2 = t.getCol j2) := by
  obtain ⟨idxs2, hsrc2, hr⟩ := mergeColumns_apply_ok hap
  rw [hsrc] at hsrc2
  have hii : idxs = idxs2 := Option.some.inj hsrc2
  subst hii
  have hvslen : (t.rows.map (fun row => mergeRow idxs cfg.separator row)).length
      = t.rows.length := by simp
  constructor
  · intro j hdest
    have hby : r = t.setCol j (t.rows.map (fun row => mergeRow idxs cfg.separator row)) := by
      rw [hr]
      simp only [Table.setColByName, hdest]
    have hrowlen : ∀ row ∈ t.rows, j < row.length := by
      intro row hrow
      rw [hwf.1 row hrow]
      exact colIdx?_lt_length hdest
    refine ⟨by rw [hby]; rfl, ?_, ?_⟩
    · rw [hby, getCol_setCol_self t j _ hrowlen hvslen]
    · intro j2 hj2
      rw [hby, getCol_setCol_ne t _ (Ne.symm hj2) hvslen]
  · intro hdest
    have hby : r = Table.mk (t.cols ++ [cfg.new_column_name])
        (List.zipWith (fun row v => row ++ [v]) t.rows
          (t.rows.map (fun row => mergeRow idxs cfg.separator row))) := by
      rw [hr]
      simp only [Table.setColByName, hdest]
    refine ⟨by rw [hby], ?_, ?_⟩
    · rw [hby]
      exact zipWith_append_getD_at t.rows _ (fun row hrow => hwf.1 row hrow) hvslen
    · intro j2 hj2
      rw [hby]
      have hrowlen : ∀ row ∈ t.rows, j2 < row.length := by
        intro row hrow
        rw [hwf.1 row hrow]
        exact hj2
      exact zipWith_append_getD_lt t.rows _ hrowlen hvslen

theorem mergeColumns_contract_witness :
    (∀ j, colIdx? (["first", "last"] : List String) ("full") = some j →
      (Table.mk ["first", "last", "full"]
          [[Value.str ("Jane"), Value.str ("Doe"), Value.str ("Jane Doe")]]).cols
        = (Table.mk ["first", "last"] [[Value.str ("Jane"), Value.str ("Doe")]]).cols
      ∧ (Table.mk ["first", "last", "full"]
          [[Value.str ("Jane"), Value.str ("Doe"), Value.str ("Jane Doe")]]).getCol j
        = (Table.mk ["first", "last"] [[Value.str ("Jane"), Value.str ("Doe")]]).rows.map
            (fun row => mergeRow [0, 1] (" ") row)
      ∧ ∀ j2, j2 ≠ j →
        (Table.mk ["first", "last", "full"]
            [[Value.str ("Jane"), Value.str ("Doe"), Value.str ("Jane Doe")]]).getCol j2
          = (Table.mk ["first", "last"] [[Value.str ("Jane"), Value.str ("Doe")]]).getCol j2)
    ∧ (colIdx? (["first", "last"] : List String) ("full") = none →
      (Table.mk ["first", "last", "full"]
          [[Value.str ("Jane"), Value.str ("Doe"), Value.str ("Jane Doe")]]).cols
        = ["first", "last"] ++ ["full"]
      ∧ (Table.mk ["first", "last", "full"]
          [[Value.str ("Jane"), Value.str ("Doe"), Value.str ("Jane Doe")]]).getCol
            (["first", "last"] : List String).length
        = (Table.mk ["first", "last"] [[Value.str ("Jane"), Value.str ("Doe")]]).rows.map
            (fun row => mergeRow [0, 1] (" ") row)
      ∧ ∀ j2, j2 < (["first", "last"] : List String).length →
        (Table.mk ["first", "last", "full"]
            [[Value.str ("Jane"), Value.str ("Doe"), Value.str ("Jane Doe")]]).getCol j2
          = (Table.mk ["first", "last"] [[Value.str ("Jane"), Value.str ("Doe")]]).getCol j2) :=
  mergeColumns_contract ⟨["first", "last"], "full", " "⟩
    (Table.mk ["first", "last"] [[Value.str ("Jane"), Value.str ("Doe")]])
    (Table.mk ["first", "last", "full"]
      [[Value.str ("Jane"), Value.str ("Doe"), Value.str ("Jane Doe")]])
    [0, 1] (by decide) (by decide) (by decide)

